import Mathlib

/-!
Verification of the libgav1 AV1 decoder core: shallow embedding of the
motion-vector prediction engine (`motion_vector.cc`), the post-filter
subsystem (`post_filter.cc`, `post_filter/deblock.cc`, the SGR path of
`dsp/x86/loop_restoration_10bit_sse4.cc`), and the output-layer ordering of
`decoder_impl.h`, together with proofs of the specified properties.

Machine integers are modelled as `ℤ` with explicit reduction at 16-bit
stores; block/tile geometry that only selects which candidates are scanned
is abstracted as explicit input sequences, while every stack/state update is
translated directly from the source.
-/

namespace Libgav1

/-! ## 16-bit integer model -/

/-- Reduce an integer to the value stored by an `int16_t` assignment
(wrap modulo `2^16` into `[-32768, 32768)`). -/
def toInt16 (x : ℤ) : ℤ := (x + 32768) % 65536 - 32768

/-- `ApplySign(value, sign)` (utils/common.h): `(value ^ sign) - sign` with
`sign` either `0` or `-1`, i.e. negate `value` exactly when `sign` is `-1`. -/
def applySign (value sgn : ℤ) : ℤ := if sgn < 0 then -value else value

/-- `mv >> 15` for an `int16_t` value promoted to `int`: the arithmetic
shift yields `-1` for negative values and `0` otherwise. -/
def signBit16 (mv : ℤ) : ℤ := if mv < 0 then -1 else 0

/-- `x & ~7` for the nonnegative operands it is applied to: clear the low
three bits, i.e. round down to a multiple of 8. -/
def clearLow3 (x : ℤ) : ℤ := x - x % 8

/-- `(mv >> 15) | 1`: `-1` for negative `mv` and `1` otherwise (the code
comments that subtracting it is equivalent to
`if (mv > 0) { --mv; } else { ++mv; }` on odd values). -/
def lowerBias (mv : ℤ) : ℤ := if mv < 0 then -1 else 1

/-! ## `LowerMvPrecision` (motion_vector.cc, section 7.10.2.10) -/

/-- `LowerMvPrecision` acting on one `int16_t` motion-vector component
`mv`, with the two frame-header flags as parameters.  When
high-precision MVs are allowed the component is untouched; when
`force_integer_mv` is set the magnitude is snapped via `(|mv| + 3) & ~7`
with the sign reapplied (`ApplySign`); otherwise an odd component has its
low bit cleared with the sign-aware bias `mv -= (mv >> 15) | 1`. -/
def lowerMvPrecision (allowHighPrecisionMv forceIntegerMv : Bool) (mv : ℤ) : ℤ :=
  if allowHighPrecisionMv then mv
  else if forceIntegerMv then
    toInt16 (applySign (clearLow3 (|mv| + 3)) (signBit16 mv))
  else if mv % 2 ≠ 0 then toInt16 (mv - lowerBias mv)
  else mv

/-! ## `SortWeightIndexStack` (motion_vector.cc) -/

/-- `DescendingOrderTwo`: swap the pair into descending order. -/
def descendingOrderTwo (a b : ℤ) : ℤ × ℤ := if a < b then (b, a) else (a, b)

/-- The outcome of `std::sort` with the comparator
`CompareCandidateMotionVectors` (`lhs > rhs`): the entries arranged in
descending order.  On `int16_t` values this outcome is unique, so any
comparison sort implements it; we use insertion sort. -/
def sortDescending (l : List ℤ) : List ℤ := l.insertionSort (fun x y => x ≥ y)

/-- `SortWeightIndexStack`, with the first `size` entries of the stack
modelled as a list.  Sizes at most 3 take the specialized
comparison-network path; larger sizes take the generic `std::sort` path. -/
def sortWeightIndexStack : List ℤ → List ℤ
  | [] => []
  | [a] => [a]
  | [a, b] =>
      let p := descendingOrderTwo a b
      [p.1, p.2]
  | [a, b, c] =>
      let p := descendingOrderTwo a b
      let q := descendingOrderTwo p.2 c
      let r := descendingOrderTwo p.1 q.1
      [r.1, r.2, q.2]
  | l => sortDescending l

/-! ## Motion-vector candidate stack (`FindMvStack` and its helpers) -/

/-- `kMaxRefMvStackSize`: the 8-slot capacity of the candidate stack
(declared in utils/constants.h; the spec fixes it at 8). -/
def kMaxRefMvStackSize : ℕ := 8

/-- A motion vector: row and column components. -/
structure MotionVector where
  row : ℤ
  col : ℤ
deriving DecidableEq

/-- The zero motion vector (`{}` initialisation in the source). -/
def zeroMv : MotionVector := ⟨0, 0⟩

/-- `CandidateMotionVector`: a pair of motion vectors; the second one is
used only in compound prediction mode. -/
structure CandidateMotionVector where
  mv0 : MotionVector
  mv1 : MotionVector
deriving DecidableEq

/-- The candidate-stack state threaded through `FindMvStack`:
`ref_mv_stack` and `weight_index_stack` are the C arrays, modelled as
total maps from index, of which the first `num` (= `*num_mv_found`)
entries are live. -/
structure RefMvState where
  stack : ℕ → CandidateMotionVector
  weight : ℕ → ℤ
  num : ℕ

/-- The zero-initialised state at the start of `FindMvStack`. -/
def initialRefMvState : RefMvState :=
  ⟨fun _ => ⟨zeroMv, zeroMv⟩, fun _ => 0, 0⟩

/-- Write `v` at index `i` of an array modelled as a map. -/
def writeAt {α : Type} (f : ℕ → α) (i : ℕ) (v : α) : ℕ → α :=
  fun j => if j = i then v else f j

/-- Modelled from the spec: `PredictionParameters::SetWeightIndexStackEntry`
(prediction_parameters.h is not among the sources) records the weight
associated with the stack entry at the given index; we store the weight
itself. -/
def setWeightIndexStackEntry (s : RefMvState) (i : ℕ) (w : ℤ) : RefMvState :=
  { s with weight := writeAt s.weight i w }

/-- Modelled from the spec: `PredictionParameters::IncreaseWeight`
(prediction_parameters.h is not among the sources) increases the weight
recorded for stack entry `i` by `w`. -/
def increaseWeight (s : RefMvState) (i : ℕ) (w : ℤ) : RefMvState :=
  { s with weight := writeAt s.weight i (s.weight i + w) }

/-- `std::find_if` over the live stack entries: the index of the first
entry satisfying `p`, if any. -/
def findMatchIdx (s : RefMvState) (p : CandidateMotionVector → Bool) :
    Option ℕ :=
  (List.range s.num).find? (fun i => p (s.stack i))

/-- The stack update performed by `SearchStack` (motion_vector.cc): search
the live entries for a duplicate of `candidate` (the whole candidate in
compound mode, `mv[0]` only in single mode); on a hit increase that
entry's weight by `weight`, otherwise append the candidate — but only if
`*num_mv_found < kMaxRefMvStackSize`.  The candidate itself (block MV
versus global-MV substitution) is computed upstream from tile state and is
passed in. -/
def searchStack (isCompound : Bool) (candidate : CandidateMotionVector)
    (w : ℤ) (s : RefMvState) : RefMvState :=
  match findMatchIdx s (fun r =>
      if isCompound then decide (r = candidate)
      else decide (r.mv0 = candidate.mv0)) with
  | some i => increaseWeight s i w
  | none =>
      if s.num ≥ kMaxRefMvStackSize then s
      else
        let s1 := { s with stack := writeAt s.stack s.num candidate }
        let s2 := setWeightIndexStackEntry s1 s.num w
        { s2 with num := s.num + 1 }

/-- The stack update performed by `AddTemporalReferenceMvCandidate`
(motion_vector.cc): the same duplicate-search / capacity-checked append
discipline with fixed weight 2; the projected candidate is computed
upstream (`GetMvProjection` + `LowerMvPrecision`), and in single mode the
pushed entry is `{{candidate_mv, {}}}`. -/
def addTemporalReferenceMv (isCompound : Bool)
    (candidate : CandidateMotionVector) (s : RefMvState) : RefMvState :=
  if isCompound then
    match findMatchIdx s (fun r => decide (r = candidate)) with
    | some i => increaseWeight s i 2
    | none =>
        if s.num ≥ kMaxRefMvStackSize then s
        else
          let s1 := { s with stack := writeAt s.stack s.num candidate }
          let s2 := setWeightIndexStackEntry s1 s.num 2
          { s2 with num := s.num + 1 }
  else
    match findMatchIdx s (fun r => decide (r.mv0 = candidate.mv0)) with
    | some i => increaseWeight s i 2
    | none =>
        if s.num ≥ kMaxRefMvStackSize then s
        else
          let s1 :=
            { s with stack := writeAt s.stack s.num ⟨candidate.mv0, zeroMv⟩ }
          let s2 := setWeightIndexStackEntry s1 s.num 2
          { s2 with num := s.num + 1 }

/-- One candidate-producing event of the scan phase of `FindMvStack`:
either a spatial candidate reaching `SearchStack` (via
`ScanRow`/`ScanColumn`/`ScanPoint` and `AddReferenceMvCandidate`, with its
weight) or a temporal candidate reaching the insertion step of
`AddTemporalReferenceMvCandidate`.  Which events occur, and their
candidates and weights, are functions of the tile neighbourhood,
abstracted here as an explicit sequence. -/
inductive ScanEvent where
  | spatial (candidate : CandidateMotionVector) (w : ℤ)
  | temporal (candidate : CandidateMotionVector)

/-- Apply one scan event to the stack state. -/
def runScanEvent (isCompound : Bool) (s : RefMvState) :
    ScanEvent → RefMvState
  | .spatial c w => searchStack isCompound c w s
  | .temporal c => addTemporalReferenceMv isCompound c s

/-- Apply a sequence of scan events in order. -/
def runScan (isCompound : Bool) (events : List ScanEvent) (s : RefMvState) :
    RefMvState :=
  events.foldl (runScanEvent isCompound) s

/-- The per-candidate body of `AddExtraSingleMvCandidate`
(motion_vector.cc): the sign-adjusted `candidate_mv` is appended at
`*num_mv_found` with weight 0 unless it duplicates stack entry 0 (when the
stack is non-empty) or stack entry 1 (when `*num_mv_found` is 2).  There
is no capacity check here; the caller keeps `*num_mv_found <= 2`. -/
def addExtraSingleMv (c : MotionVector) (s : RefMvState) : RefMvState :=
  if (s.num ≠ 0 ∧ (s.stack 0).mv0 = c) ∨ (s.num = 2 ∧ (s.stack 1).mv0 = c)
  then s
  else
    let s1 := { s with stack := writeAt s.stack s.num ⟨c, zeroMv⟩ }
    let s2 := setWeightIndexStackEntry s1 s.num 0
    { s2 with num := s.num + 1 }

/-- One neighbouring block visited by `ExtraSearch` in single-prediction
mode: the sign-adjusted candidate MVs of its (at most two) used reference
frames, each fed to `AddExtraSingleMvCandidate` in order. -/
def addExtraSingleBlock (p : Option MotionVector × Option MotionVector)
    (s : RefMvState) : RefMvState :=
  let s1 := match p.1 with
    | some c => addExtraSingleMv c s
    | none => s
  match p.2 with
  | some c => addExtraSingleMv c s1
  | none => s1

/-- The scan passes of `ExtraSearch` in single-prediction mode: the
neighbouring blocks are visited in order and the scan stops once
`*num_mv_found >= 2`.  The visited blocks are a function of the tile
neighbourhood, abstracted as an explicit sequence. -/
def extraSearchSingleScan
    (blocks : List (Option MotionVector × Option MotionVector))
    (s : RefMvState) : RefMvState :=
  blocks.foldl (fun t blk => if t.num ≥ 2 then t else addExtraSingleBlock blk t)
    s

/-- The single-prediction-mode tail of `ExtraSearch`: for `i` from
`*num_mv_found` to 1, `ref_mv_stack[i].mv[0] = global_mv[0]` and the
weight-index entry is set with weight 0; `*num_mv_found` is not written. -/
def fillWithGlobalMv (globalMv0 : MotionVector) (s : RefMvState) :
    RefMvState :=
  ((List.range 2).drop s.num).foldl (fun t i =>
    let t1 := { t with stack := writeAt t.stack i ⟨globalMv0, (t.stack i).mv1⟩ }
    setWeightIndexStackEntry t1 i 0) s

/-- `ExtraSearch` (motion_vector.cc, 7.10.2.12).  In compound mode the
scan passes only accumulate the `ref_id`/`ref_diff` arrays (they do not
touch the stack); the merged `combined_mvs` — same-reference hits, then
sign-flipped different-reference hits, then the global MVs, computed
upstream and passed in — are installed and `*num_mv_found` is set to
exactly 2.  In single-prediction mode the scan passes run
`AddExtraSingleMvCandidate` and then the remaining entries up to index 1
are filled with the global MV. -/
def extraSearch (isCompound : Bool)
    (blocks : List (Option MotionVector × Option MotionVector))
    (combined0 combined1 : CandidateMotionVector) (globalMv0 : MotionVector)
    (s : RefMvState) : RefMvState :=
  if isCompound then
    if s.num = 1 then
      let c := if combined0 = s.stack 0 then combined1 else combined0
      let s1 := { s with stack := writeAt s.stack 1 c }
      let s2 := setWeightIndexStackEntry s1 1 0
      { s2 with num := 2 }
    else
      let s1 :=
        { s with stack := writeAt (writeAt s.stack 0 combined0) 1 combined1 }
      let s2 := setWeightIndexStackEntry (setWeightIndexStackEntry s1 0 0) 1 0
      { s2 with num := 2 }
  else
    fillWithGlobalMv globalMv0 (extraSearchSingleScan blocks s)

/-- Sort one contiguous segment of the weight-index stack
(`SortWeightIndexStack` applied at an offset, as `FindMvStack` does for
the nearest and remaining sub-ranges). -/
def sortWeightSegment (s : RefMvState) (start len : ℕ) : RefMvState :=
  let sorted := sortWeightIndexStack
    ((List.range len).map (fun i => s.weight (start + i)))
  { s with weight := fun j =>
      if start ≤ j ∧ j < start + len then sorted.getD (j - start) (s.weight j)
      else s.weight j }

/-- The result of `FindMvStack`: the final stack state together with
`prediction_parameters->nearest_mv_count` and
`prediction_parameters->ref_mv_count`. -/
structure FindMvStackResult where
  state : RefMvState
  nearestMvCount : ℕ
  refMvCount : ℕ

/-- `FindMvStack` (motion_vector.cc): run the nearest scans
(`ScanRow`/`ScanColumn`/`ScanPoint` at delta -1), snapshot
`nearest_mv_count`, run the temporal scan and the outer scans, then either
`ExtraSearch` (when fewer than 2 candidates were found) or the two
`SortWeightIndexStack` calls on the nearest and remaining weight
sub-ranges, and finally record `ref_mv_count = num_mv_found`. -/
def findMvStack (isCompound : Bool)
    (nearestEvents laterEvents : List ScanEvent)
    (extraBlocks : List (Option MotionVector × Option MotionVector))
    (combined0 combined1 : CandidateMotionVector)
    (globalMv0 : MotionVector) : FindMvStackResult :=
  let s1 := runScan isCompound nearestEvents initialRefMvState
  let nearest := s1.num
  let s2 := runScan isCompound laterEvents s1
  let s3 :=
    if s2.num < 2 then
      extraSearch isCompound extraBlocks combined0 combined1 globalMv0 s2
    else
      sortWeightSegment (sortWeightSegment s2 0 nearest) nearest
        (s2.num - nearest)
  { state := s3, nearestMvCount := nearest, refMvCount := s3.num }

/-! ## SGR blend weights (`BoxFilterProcess`,
dsp/x86/loop_restoration_10bit_sse4.cc) -/

/-- Modelled from the spec: `kSgrProjPrecisionBits`, the fixed
self-guided-restoration projection precision constant (declared in
utils/constants.h, which is not among the sources; its value is 7). -/
def kSgrProjPrecisionBits : ℕ := 7

/-- The third blend weight set up by `BoxFilterProcess` when both
box-filter radii are active: `w0` and `w1` are the two signed `int16_t`
multipliers of `sgr_proj_info`, and
`w2 = (1 << kSgrProjPrecisionBits) - w0 - w1` is computed in `int` and
stored into an `int16_t`. -/
def sgrW2 (w0 w1 : ℤ) : ℤ :=
  toInt16 (2 ^ kSgrProjPrecisionBits - w0 - w1)

/-! ## Warp sample collection (`FindWarpSamples` / `AddSample`,
motion_vector.cc) -/

/-- `kMaxLeastSquaresSamples` (utils/constants.h, which is not among the
sources): the cap on collected warp samples, value 8 per the spec. -/
def kMaxLeastSquaresSamples : ℕ := 8

/-- The state threaded through `FindWarpSamples`: `*num_warp_samples`,
`*num_samples_scanned`, and the `candidates` array (a total map of which
the first `num_warp_samples` entries are live). -/
structure WarpSampleState where
  numWarpSamples : ℕ
  numSamplesScanned : ℕ
  candidates : ℕ → ℤ × ℤ × ℤ × ℤ

/-- The zero-initialised state at the start of `FindWarpSamples`. -/
def initialWarpState : WarpSampleState := ⟨0, 0, fun _ => (0, 0, 0, 0)⟩

/-- `AddSample` (motion_vector.cc, 7.10.4.2) for one scanned position.
`passes` abstracts the in-tile / has-parameters / reference-frame checks
(computed upstream from tile state), `isValid` is the
`kWarpValidThreshold` divergence test against the block's own MV, and
`data` is the candidate record (scaled mid-position and MV sums).
Behaviour translated from the source: return early once
`*num_samples_scanned >= kMaxLeastSquaresSamples` or when a check fails;
otherwise increment the scan counter, drop an invalid sample unless it is
the very first scanned one, and else store the candidate at
`candidates[*num_warp_samples]`, incrementing `*num_warp_samples` only
when the sample is valid. -/
def addSample (passes isValid : Bool) (data : ℤ × ℤ × ℤ × ℤ)
    (s : WarpSampleState) : WarpSampleState :=
  if s.numSamplesScanned ≥ kMaxLeastSquaresSamples then s
  else if ¬passes then s
  else
    let scanned := s.numSamplesScanned + 1
    if ¬isValid ∧ scanned > 1 then { s with numSamplesScanned := scanned }
    else
      { numWarpSamples := s.numWarpSamples + (if isValid then 1 else 0),
        numSamplesScanned := scanned,
        candidates := writeAt s.candidates s.numWarpSamples data }

/-- The scan phase of `FindWarpSamples` (motion_vector.cc): the sequence
of positions visited (top row, left column, top-left and top-right
corners, with block-size-dependent steps) is a function of the tile
neighbourhood, abstracted as an explicit sequence of `AddSample`
arguments. -/
def scanWarpSamples (samples : List (Bool × Bool × (ℤ × ℤ × ℤ × ℤ))) :
    WarpSampleState :=
  samples.foldl (fun t e => addSample e.1 e.2.1 e.2.2 t) initialWarpState

/-- `FindWarpSamples` (motion_vector.cc): the scan phase followed by the
final fallback
`if (*num_warp_samples == 0 && *num_samples_scanned > 0) *num_warp_samples = 1`. -/
def findWarpSamples (samples : List (Bool × Bool × (ℤ × ℤ × ℤ × ℤ))) :
    WarpSampleState :=
  let s := scanWarpSamples samples
  if s.numWarpSamples = 0 ∧ s.numSamplesScanned > 0 then
    { s with numWarpSamples := 1 }
  else s

/-! ## Multithreaded super-resolution partition
(`PostFilter::ApplySuperResThreaded`, post_filter.cc) -/

/-- `thread_pool_rows4x4`: the rows4x4 processed by each pool thread,
`frame_header_.rows4x4 / num_threads` with
`num_threads = thread_count + 1` (pool threads plus the calling
thread). -/
def threadPoolRows4x4 (rows4x4 threadCount : ℕ) : ℕ :=
  rows4x4 / (threadCount + 1)

/-- `current_thread_rows4x4`: the calling thread rounds up to process all
the remaining rows4x4. -/
def currentThreadRows4x4 (rows4x4 threadCount : ℕ) : ℕ :=
  rows4x4 - threadPoolRows4x4 rows4x4 threadCount * threadCount

/-- `row4x4_start` for worker `i` (the loop advances it by
`thread_pool_rows4x4` per iteration; worker `threadCount` is the calling
thread). -/
def superResRowStart (rows4x4 threadCount i : ℕ) : ℕ :=
  i * threadPoolRows4x4 rows4x4 threadCount

/-- The number of rows4x4 processed by worker `i`. -/
def superResRowCount (rows4x4 threadCount i : ℕ) : ℕ :=
  if i < threadCount then threadPoolRows4x4 rows4x4 threadCount
  else currentThreadRows4x4 rows4x4 threadCount

/-! ## CDEF window construction (`CopyRows` /
`PostFilter::PrepareCdefBlock`, post_filter.cc) -/

/-- Modelled from the spec: `PostFilter::kCdefLargeValue`, the sentinel
"large value" written into CDEF padding, distinguishable from any valid
pixel (declared in post_filter.h, which is not among the sources; its
value is 0x4000). -/
def kCdefLargeValue : ℤ := 0x4000

/-- Modelled from the spec: `kCdefBorder`, the 2-pixel CDEF border
(declared in utils/constants.h, which is not among the sources). -/
def kCdefBorder : ℤ := 2

/-- One cell written by `CopyRows` (post_filter.cc) into the bordered
working copy, at column offset `x` relative to the block start
(`-kCdefBorder <= x < unit_width + kCdefBorder`), for one copied row
whose frame pixels are `src`.  When the row lies past a true frame
top/bottom edge the whole row is `Memset` to
`PostFilter::kCdefLargeValue`; otherwise the left border cells receive
the sentinel exactly at a true frame left edge (the neighbouring frame
pixels `src x` otherwise), the body copies `src`, and the right border
cells receive the sentinel exactly at a true frame right edge.  (The
`memcpy` fast path and the per-pixel fallback of the source write the
same values.) -/
def copyRowsCell (src : ℤ → ℤ) (blockWidth : ℤ)
    (isFrameTopOrBottom isFrameLeft isFrameRight : Bool) (x : ℤ) : ℤ :=
  if isFrameTopOrBottom then kCdefLargeValue
  else if x < 0 then (if isFrameLeft then kCdefLargeValue else src x)
  else if x < blockWidth then src x
  else (if isFrameRight then kCdefLargeValue else src x)

/-- `is_frame_top` in `PostFilter::PrepareCdefBlock`: the 64x64 unit lies
in the first 64x64 row of the frame. -/
def cdefIsFrameTop (row64x64 : ℕ) : Bool := row64x64 = 0

/-- `is_frame_left` in `PostFilter::PrepareCdefBlock`: the 64x64 unit
lies in the first 64x64 column of the frame. -/
def cdefIsFrameLeft (column64x64 : ℕ) : Bool := column64x64 = 0

/-- `is_frame_bottom` in `PostFilter::PrepareCdefBlock`. -/
def cdefIsFrameBottom (startY blockHeight planeHeight : ℤ) : Bool :=
  startY + blockHeight ≥ planeHeight

/-- `is_frame_right` in `PostFilter::PrepareCdefBlock`. -/
def cdefIsFrameRight (startX blockWidth planeWidth : ℤ) : Bool :=
  startX + blockWidth ≥ planeWidth

/-! ## Deblock edge decisions (post_filter/deblock.cc) -/

/-- `BlockParameters` as consumed by the deblock edge decisions.
`objId` models C++ object identity: `block_parameters_.Find` returns
pointers, two 4x4 positions share one `BlockParameters` object exactly
when they lie in the same coded block, and `SkipFilter` compares the
pointers. -/
structure BlockParameters where
  objId : ℕ
  skip : Bool
  isInter : Bool
  deblockFilterLevel : Fin 2 → ℕ

/-- `SkipFilter` (post_filter/deblock.cc): true when skip and inter hold
for the current block and the edge is not at a block boundary (pointer
equality of the two `BlockParameters`, modelled by object identity). -/
def skipFilter (bp bpPrev : BlockParameters) : Bool :=
  bp.skip && bp.isInter && (bp.objId == bpPrev.objId)

/-- The outputs of a deblock edge-info query: the returned bool and the
`level`/`step`/`filter_length` out-parameters (out-parameters the source
leaves unwritten on an early `false` return are reported as 0). -/
structure DeblockEdgeInfo where
  filtered : Bool
  level : ℕ
  step : ℕ
  filterLength : ℕ

/-- `PostFilter::GetHorizontalDeblockFilterEdgeInfo`
(post_filter/deblock.cc) at `(row4x4, column4x4)`.  The column is fixed
throughout, so `transformHeight row` stands for
`kTransformHeight[inter_transform_sizes_[row][column4x4]]` and
`find row` for `block_parameters_.Find(row, column4x4)`. -/
def getHorizontalDeblockFilterEdgeInfo (transformHeight : ℕ → ℕ)
    (find : ℕ → BlockParameters) (row4x4 : ℕ) : DeblockEdgeInfo :=
  let step := transformHeight row4x4
  if row4x4 = 0 then ⟨false, 0, step, 0⟩
  else
    let bp := find row4x4
    let levelThis := bp.deblockFilterLevel 1
    let bpPrev := find (row4x4 - 1)
    let levelPrev := bpPrev.deblockFilterLevel 1
    let level := if levelThis = 0 then levelPrev else levelThis
    if levelThis = 0 ∧ levelPrev = 0 then ⟨false, 0, step, 0⟩
    else if skipFilter bp bpPrev then ⟨false, level, step, 0⟩
    else ⟨true, level, step, min step (transformHeight (row4x4 - 1))⟩

/-- `PostFilter::GetVerticalDeblockFilterEdgeInfo`
(post_filter/deblock.cc) at `(row4x4, column4x4)`.  The row is fixed
throughout, so `transformWidth column` stands for
`kTransformWidth[inter_transform_sizes_[row4x4][column]]` and
`find column` for the `bp_ptr` array lookups. -/
def getVerticalDeblockFilterEdgeInfo (transformWidth : ℕ → ℕ)
    (find : ℕ → BlockParameters) (column4x4 : ℕ) : DeblockEdgeInfo :=
  let step := transformWidth column4x4
  if column4x4 = 0 then ⟨false, 0, step, 0⟩
  else
    let bp := find column4x4
    let levelThis := bp.deblockFilterLevel 0
    let bpPrev := find (column4x4 - 1)
    let levelPrev := bpPrev.deblockFilterLevel 0
    let level := if levelThis = 0 then levelPrev else levelThis
    if levelThis = 0 ∧ levelPrev = 0 then ⟨false, 0, step, 0⟩
    else if skipFilter bp bpPrev then ⟨false, level, step, 0⟩
    else ⟨true, level, step, min step (transformWidth (column4x4 - 1))⟩

/-! ## Output-layer ordering (`TemporalUnit::OutputLayer`,
decoder_impl.h) -/

/-- `TemporalUnit::OutputLayer` (decoder_impl.h): one output frame of a
temporal unit — an abstract frame id standing for the
`RefCountedBufferPtr`, and its display position within the unit. -/
structure OutputLayer where
  frame : ℕ
  positionInTemporalUnit : ℤ

/-- `OutputLayer::operator<` (decoder_impl.h): strict comparator sorting
`output_layers[]` in reverse (descending) order of
`position_in_temporal_unit`. -/
def outputLayerLt (lhs rhs : OutputLayer) : Prop :=
  lhs.positionInTemporalUnit > rhs.positionInTemporalUnit

/-- The non-strict order induced by `OutputLayer::operator<` under
`std::sort`'s contract (`a` may precede `b` iff `¬(b < a)`). -/
def outputLayerGe (lhs rhs : OutputLayer) : Prop :=
  rhs.positionInTemporalUnit ≤ lhs.positionInTemporalUnit

instance : DecidableRel outputLayerGe := fun l r =>
  inferInstanceAs
    (Decidable (r.positionInTemporalUnit ≤ l.positionInTemporalUnit))

instance : IsTotal OutputLayer outputLayerGe :=
  ⟨fun a b =>
    (le_total a.positionInTemporalUnit b.positionInTemporalUnit).symm⟩

instance : IsTrans OutputLayer outputLayerGe :=
  ⟨fun _ _ _ hab hbc => le_trans hbc hab⟩

/-- `std::sort(&output_layers[0], &output_layers[output_layer_count])`
with `OutputLayer::operator<`: any comparison sort satisfying the
comparator's contract; realised by insertion sort over the induced order,
yielding the array in descending `position_in_temporal_unit` order. -/
def sortOutputLayers (l : List OutputLayer) : List OutputLayer :=
  l.insertionSort outputLayerGe

/-- Modelled from the spec: `DecoderImpl::DequeueFrame` (decoder_impl.cc
is not among the sources).  decoder_impl.h documents that after
`output_layers[]` is sorted in reverse order of
`position_in_temporal_unit`, "DequeueFrame() will then return the frames
in reverse order (so that the entire process can run with a single
counter variable)": successive calls read
`output_layers[--output_layer_count]`, traversing the sorted table with a
single monotonically decreasing index, so the sequence of dequeued layers
is the reverse of the sorted table. -/
def dequeueOrder (l : List OutputLayer) : List OutputLayer :=
  (sortOutputLayers l).reverse

/-! # Theorems -/

/-- Reduction of `LowerMvPrecision` in force-integer mode. -/
theorem lowerMvPrecision_false_true (mv : ℤ) :
    lowerMvPrecision false true mv =
      toInt16 (applySign (clearLow3 (|mv| + 3)) (signBit16 mv)) := rfl

/-- Reduction of `LowerMvPrecision` in low-bit-clearing mode. -/
theorem lowerMvPrecision_false_false (mv : ℤ) :
    lowerMvPrecision false false mv =
      if mv % 2 ≠ 0 then toInt16 (mv - lowerBias mv) else mv := rfl

/-- The force-integer branch of `LowerMvPrecision` produces an in-range
multiple of 8. -/
theorem lowerMvPrecision_forceInteger_shape (mv : ℤ) :
    -32768 ≤ lowerMvPrecision false true mv ∧
      lowerMvPrecision false true mv < 32768 ∧
      lowerMvPrecision false true mv % 8 = 0 := by
  rw [lowerMvPrecision_false_true]
  unfold toInt16 applySign clearLow3 signBit16
  rcases le_or_lt 0 mv with hmv | hmv
  · rw [abs_of_nonneg hmv]
    split_ifs <;> omega
  · rw [abs_of_neg hmv]
    split_ifs <;> omega

/-- The force-integer branch of `LowerMvPrecision` fixes every in-range
multiple of 8. -/
theorem lowerMvPrecision_forceInteger_fixed (r : ℤ) (h1 : -32768 ≤ r)
    (h2 : r < 32768) (h8 : r % 8 = 0) :
    lowerMvPrecision false true r = r := by
  rw [lowerMvPrecision_false_true]
  unfold toInt16 applySign clearLow3 signBit16
  rcases le_or_lt 0 r with hr | hr
  · rw [abs_of_nonneg hr]
    split_ifs <;> omega
  · rw [abs_of_neg hr]
    split_ifs <;> omega

/-- The low-bit-clearing branch of `LowerMvPrecision` produces an in-range
even value. -/
theorem lowerMvPrecision_lowBit_shape (mv : ℤ) (h1 : -32768 ≤ mv)
    (h2 : mv < 32768) :
    -32768 ≤ lowerMvPrecision false false mv ∧
      lowerMvPrecision false false mv < 32768 ∧
      lowerMvPrecision false false mv % 2 = 0 := by
  rw [lowerMvPrecision_false_false]
  unfold toInt16 lowerBias
  split_ifs <;> omega

/-- The low-bit-clearing branch of `LowerMvPrecision` fixes every even
value. -/
theorem lowerMvPrecision_lowBit_fixed (r : ℤ) (h2 : r % 2 = 0) :
    lowerMvPrecision false false r = r := by
  rw [lowerMvPrecision_false_false]
  unfold toInt16 lowerBias
  split_ifs <;> omega

/-- C3: for every signed 16-bit motion-vector component and both precision
modes (and trivially when high-precision MVs are allowed), applying
`LowerMvPrecision` a second time to an already-lowered value changes
nothing: the precision reduction is idempotent. -/
theorem lowerMvPrecision_idempotent (allowHighPrecisionMv forceIntegerMv : Bool)
    (mv : ℤ) (h1 : -32768 ≤ mv) (h2 : mv < 32768) :
    lowerMvPrecision allowHighPrecisionMv forceIntegerMv
        (lowerMvPrecision allowHighPrecisionMv forceIntegerMv mv) =
      lowerMvPrecision allowHighPrecisionMv forceIntegerMv mv := by
  cases allowHighPrecisionMv with
  | true => simp [lowerMvPrecision]
  | false =>
    cases forceIntegerMv with
    | true =>
      obtain ⟨ha, hb, hc⟩ := lowerMvPrecision_forceInteger_shape mv
      exact lowerMvPrecision_forceInteger_fixed _ ha hb hc
    | false =>
      obtain ⟨-, -, hc⟩ := lowerMvPrecision_lowBit_shape mv h1 h2
      exact lowerMvPrecision_lowBit_fixed _ hc

/-- Concrete instance of C3: the theorem applied at `mv = -12349` in
force-integer mode (and evaluated). -/
theorem lowerMvPrecision_idempotent_witness :
    (-32768 ≤ (-12349 : ℤ) ∧ (-12349 : ℤ) < 32768) ∧
      lowerMvPrecision false true (lowerMvPrecision false true (-12349)) =
        lowerMvPrecision false true (-12349) :=
  ⟨by decide, lowerMvPrecision_idempotent false true (-12349) (by decide)
    (by decide)⟩

/-- `SearchStack` either leaves `num_mv_found` unchanged or, only when
the stack is below capacity, increments it. -/
theorem searchStack_num (isCompound : Bool) (c : CandidateMotionVector)
    (w : ℤ) (s : RefMvState) :
    (searchStack isCompound c w s).num = s.num ∨
      ((searchStack isCompound c w s).num = s.num + 1 ∧
        s.num < kMaxRefMvStackSize) := by
  unfold searchStack
  cases hm : findMatchIdx s fun r =>
      if isCompound = true then decide (r = c) else decide (r.mv0 = c.mv0) with
  | some i => left; rfl
  | none =>
    simp only [setWeightIndexStackEntry]
    split_ifs with h
    · left; rfl
    · right; exact ⟨rfl, by omega⟩

/-- `AddTemporalReferenceMvCandidate` either leaves `num_mv_found`
unchanged or, only when the stack is below capacity, increments it. -/
theorem addTemporalReferenceMv_num (isCompound : Bool)
    (c : CandidateMotionVector) (s : RefMvState) :
    (addTemporalReferenceMv isCompound c s).num = s.num ∨
      ((addTemporalReferenceMv isCompound c s).num = s.num + 1 ∧
        s.num < kMaxRefMvStackSize) := by
  unfold addTemporalReferenceMv
  cases isCompound with
  | true =>
    rw [if_pos rfl]
    cases hm : findMatchIdx s fun r => decide (r = c) with
    | some i => left; rfl
    | none =>
      simp only [setWeightIndexStackEntry]
      split_ifs with h
      · left; rfl
      · right; exact ⟨rfl, by omega⟩
  | false =>
    rw [if_neg (by simp)]
    cases hm : findMatchIdx s fun r => decide (r.mv0 = c.mv0) with
    | some i => left; rfl
    | none =>
      simp only [setWeightIndexStackEntry]
      split_ifs with h
      · left; rfl
      · right; exact ⟨rfl, by omega⟩

/-- One scan event either leaves `num_mv_found` unchanged or, only when
the stack is below capacity, increments it. -/
theorem runScanEvent_num (isCompound : Bool) (s : RefMvState)
    (e : ScanEvent) :
    (runScanEvent isCompound s e).num = s.num ∨
      ((runScanEvent isCompound s e).num = s.num + 1 ∧
        s.num < kMaxRefMvStackSize) := by
  cases e with
  | spatial c w => exact searchStack_num isCompound c w s
  | temporal c => exact addTemporalReferenceMv_num isCompound c s

/-- Over a whole scan, `num_mv_found` is monotone and never exceeds the
stack capacity once within it. -/
theorem runScan_num (isCompound : Bool) (events : List ScanEvent)
    (s : RefMvState) :
    s.num ≤ (runScan isCompound events s).num ∧
      (runScan isCompound events s).num ≤ max s.num kMaxRefMvStackSize := by
  induction events generalizing s with
  | nil => constructor <;> simp [runScan]
  | cons e es ih =>
    have hstep := runScanEvent_num isCompound s e
    have hrest := ih (runScanEvent isCompound s e)
    simp only [runScan, List.foldl_cons] at hrest ⊢
    omega

/-- `AddExtraSingleMvCandidate` adds at most one entry. -/
theorem addExtraSingleMv_num (c : MotionVector) (s : RefMvState) :
    s.num ≤ (addExtraSingleMv c s).num ∧
      (addExtraSingleMv c s).num ≤ s.num + 1 := by
  unfold addExtraSingleMv
  split_ifs <;> simp [setWeightIndexStackEntry]

/-- One extra-search block adds at most two entries. -/
theorem addExtraSingleBlock_num (p : Option MotionVector × Option MotionVector)
    (s : RefMvState) :
    s.num ≤ (addExtraSingleBlock p s).num ∧
      (addExtraSingleBlock p s).num ≤ s.num + 2 := by
  rcases p with ⟨_ | c1, _ | c2⟩ <;> dsimp only [addExtraSingleBlock]
  · exact ⟨le_refl _, by omega⟩
  · have h := addExtraSingleMv_num c2 s
    exact ⟨h.1, by omega⟩
  · have h := addExtraSingleMv_num c1 s
    exact ⟨h.1, by omega⟩
  · have h1 := addExtraSingleMv_num c1 s
    have h2 := addExtraSingleMv_num c2 (addExtraSingleMv c1 s)
    exact ⟨le_trans h1.1 h2.1, by omega⟩

/-- The single-mode extra-search scan is monotone in `num_mv_found` and
keeps it at most 3 (it only processes a block while fewer than 2
candidates are present, and a block adds at most two). -/
theorem extraSearchSingleScan_num
    (blocks : List (Option MotionVector × Option MotionVector))
    (s : RefMvState) (h : s.num ≤ 3) :
    s.num ≤ (extraSearchSingleScan blocks s).num ∧
      (extraSearchSingleScan blocks s).num ≤ 3 := by
  induction blocks generalizing s with
  | nil => exact ⟨le_refl _, h⟩
  | cons blk rest ih =>
    simp only [extraSearchSingleScan, List.foldl_cons] at ih ⊢
    split_ifs with hge
    · exact ih s h
    · have hblk := addExtraSingleBlock_num blk s
      have hrest := ih (addExtraSingleBlock blk s) (by omega)
      omega

/-- The global-MV fill loop of `ExtraSearch` does not write
`*num_mv_found`. -/
theorem fillWithGlobalMv_num (g : MotionVector) (s : RefMvState) :
    (fillWithGlobalMv g s).num = s.num := by
  unfold fillWithGlobalMv
  generalize (List.range 2).drop s.num = l
  induction l generalizing s with
  | nil => rfl
  | cons i t ih =>
    simp only [List.foldl_cons]
    exact ih _

/-- The global-MV fill loop writes the global MV with weight 0 into every
entry from `num_mv_found` up to index 1. -/
theorem fillWithGlobalMv_fills (g : MotionVector) (s : RefMvState) (i : ℕ)
    (h1 : s.num ≤ i) (h2 : i < 2) :
    ((fillWithGlobalMv g s).stack i).mv0 = g ∧
      (fillWithGlobalMv g s).weight i = 0 := by
  have hsn : s.num = 0 ∨ s.num = 1 := by omega
  have hrange : List.range 2 = [0, 1] := rfl
  unfold fillWithGlobalMv
  rw [hrange]
  rcases hsn with hn | hn <;> rw [hn]
  · have hi : i = 0 ∨ i = 1 := by omega
    rcases hi with hi | hi <;> subst hi <;>
      simp [List.foldl, setWeightIndexStackEntry, writeAt]
  · have hi : i = 1 := by omega
    subst hi
    simp [List.foldl, setWeightIndexStackEntry, writeAt]

/-- In compound mode `ExtraSearch` always returns with exactly two
candidates. -/
theorem extraSearch_compound_num
    (blocks : List (Option MotionVector × Option MotionVector))
    (c0 c1 : CandidateMotionVector) (g : MotionVector) (s : RefMvState) :
    (extraSearch true blocks c0 c1 g s).num = 2 := by
  unfold extraSearch
  rw [if_pos rfl]
  split_ifs <;> rfl

/-- Sorting a weight sub-range does not change `num_mv_found`. -/
theorem sortWeightSegment_num (s : RefMvState) (a b : ℕ) :
    (sortWeightSegment s a b).num = s.num := rfl

/-- C2: for every block and every input configuration, `FindMvStack`
never accumulates more than `kMaxRefMvStackSize = 8` candidates, and on
return both `ref_mv_count` and `nearest_mv_count` are at most 8, with
`nearest_mv_count <= ref_mv_count`. -/
theorem findMvStack_stack_capacity (isCompound : Bool)
    (nearestEvents laterEvents : List ScanEvent)
    (extraBlocks : List (Option MotionVector × Option MotionVector))
    (c0 c1 : CandidateMotionVector) (g : MotionVector) :
    (findMvStack isCompound nearestEvents laterEvents extraBlocks c0 c1
        g).refMvCount ≤ kMaxRefMvStackSize ∧
      (findMvStack isCompound nearestEvents laterEvents extraBlocks c0 c1
        g).nearestMvCount ≤ kMaxRefMvStackSize ∧
      (findMvStack isCompound nearestEvents laterEvents extraBlocks c0 c1
        g).nearestMvCount ≤
        (findMvStack isCompound nearestEvents laterEvents extraBlocks c0 c1
          g).refMvCount := by
  unfold findMvStack
  have h1 := runScan_num isCompound nearestEvents initialRefMvState
  have hinit : initialRefMvState.num = 0 := rfl
  have h2 := runScan_num isCompound laterEvents
    (runScan isCompound nearestEvents initialRefMvState)
  simp only
  split_ifs with hlt
  · cases isCompound with
    | true =>
      have h3 := extraSearch_compound_num extraBlocks c0 c1 g
        (runScan true laterEvents (runScan true nearestEvents
          initialRefMvState))
      constructor
      · simp only [h3]; unfold kMaxRefMvStackSize; omega
      · constructor
        · unfold kMaxRefMvStackSize at h1 h2 ⊢; omega
        · simp only [h3]; omega
    | false =>
      have h3 : extraSearch false extraBlocks c0 c1 g
          (runScan false laterEvents (runScan false nearestEvents
            initialRefMvState)) =
          fillWithGlobalMv g (extraSearchSingleScan extraBlocks
            (runScan false laterEvents (runScan false nearestEvents
              initialRefMvState))) := rfl
      have h4 := extraSearchSingleScan_num extraBlocks
        (runScan false laterEvents (runScan false nearestEvents
          initialRefMvState)) (by omega)
      have h5 := fillWithGlobalMv_num g (extraSearchSingleScan extraBlocks
        (runScan false laterEvents (runScan false nearestEvents
          initialRefMvState)))
      rw [h3, h5]
      unfold kMaxRefMvStackSize at h1 h2 ⊢
      omega
  · simp only [sortWeightSegment_num]
    unfold kMaxRefMvStackSize at h1 h2 ⊢
    omega

/-- C10: in single-prediction mode the extra search fills the stack
entries from `*num_mv_found` up to index 1 with the global motion vector
at weight 0 without writing `*num_mv_found` (so `FindMvStack` can return
`ref_mv_count` 0 or 1 even though entries 0 and 1 hold valid MVs), while
in compound mode it sets `*num_mv_found` to exactly 2. -/
theorem extraSearch_single_leaves_count (blocks : List
      (Option MotionVector × Option MotionVector))
    (c0 c1 : CandidateMotionVector) (g : MotionVector) (s : RefMvState)
    (i : ℕ) (hi : (extraSearchSingleScan blocks s).num ≤ i) (hi2 : i < 2) :
    (extraSearch false blocks c0 c1 g s).num =
        (extraSearchSingleScan blocks s).num ∧
      ((extraSearch false blocks c0 c1 g s).stack i).mv0 = g ∧
      (extraSearch false blocks c0 c1 g s).weight i = 0 ∧
      (extraSearch true blocks c0 c1 g s).num = 2 ∧
      (findMvStack false [] [] [] c0 c1 g).refMvCount = 0 ∧
      ((findMvStack false [] [] [] c0 c1 g).state.stack 0).mv0 = g ∧
      ((findMvStack false [] [] [] c0 c1 g).state.stack 1).mv0 = g := by
  have hfill : extraSearch false blocks c0 c1 g s =
      fillWithGlobalMv g (extraSearchSingleScan blocks s) := rfl
  refine ⟨?_, ?_, ?_, extraSearch_compound_num blocks c0 c1 g s, ?_, ?_, ?_⟩
  · rw [hfill]; exact fillWithGlobalMv_num g _
  · rw [hfill]
    exact (fillWithGlobalMv_fills g _ i hi hi2).1
  · rw [hfill]
    exact (fillWithGlobalMv_fills g _ i hi hi2).2
  · rfl
  · have h0 : (findMvStack false [] [] [] c0 c1 g).state =
        fillWithGlobalMv g initialRefMvState := rfl
    rw [h0]
    exact (fillWithGlobalMv_fills g initialRefMvState 0 (by exact Nat.zero_le 0)
      (by omega)).1
  · have h0 : (findMvStack false [] [] [] c0 c1 g).state =
        fillWithGlobalMv g initialRefMvState := rfl
    rw [h0]
    exact (fillWithGlobalMv_fills g initialRefMvState 1 (by exact Nat.zero_le 1)
      (by omega)).1

/-- Concrete instance of C10: the theorem applied with an empty
neighbourhood, at entry index 1. -/
theorem extraSearch_single_leaves_count_witness :
    ((extraSearchSingleScan [] initialRefMvState).num ≤ 1 ∧ 1 < 2) ∧
      ((extraSearch false [] ⟨⟨1, 2⟩, ⟨3, 4⟩⟩ ⟨⟨5, 6⟩, ⟨7, 8⟩⟩ ⟨9, 10⟩
          initialRefMvState).num =
          (extraSearchSingleScan [] initialRefMvState).num ∧
        ((extraSearch false [] ⟨⟨1, 2⟩, ⟨3, 4⟩⟩ ⟨⟨5, 6⟩, ⟨7, 8⟩⟩ ⟨9, 10⟩
            initialRefMvState).stack 1).mv0 = ⟨9, 10⟩) := by
  have h := extraSearch_single_leaves_count [] ⟨⟨1, 2⟩, ⟨3, 4⟩⟩
    ⟨⟨5, 6⟩, ⟨7, 8⟩⟩ ⟨9, 10⟩ initialRefMvState 1 (by decide) (by decide)
  exact ⟨⟨by decide, by decide⟩, h.1, h.2.1⟩

/-- C4: on every stack of at most 3 weight-index entries, the specialized
comparison-network path of `SortWeightIndexStack` agrees with the generic
descending `std::sort` path. -/
theorem sortWeightIndexStack_eq_sortDescending (l : List ℤ)
    (h : l.length ≤ 3) : sortWeightIndexStack l = sortDescending l := by
  match l with
  | [] => rfl
  | [a] => rfl
  | [a, b] =>
    simp only [sortWeightIndexStack, sortDescending, descendingOrderTwo,
      List.insertionSort, List.orderedInsert]
    split_ifs <;> (try simp_all) <;> (try split_ifs) <;> (try simp_all) <;>
      omega
  | [a, b, c] =>
    simp only [sortWeightIndexStack, sortDescending, descendingOrderTwo,
      List.insertionSort, List.orderedInsert]
    split_ifs <;> (try simp_all) <;> (try split_ifs) <;> (try simp_all) <;>
      omega
  | a :: b :: c :: d :: rest =>
    simp only [List.length_cons] at h
    omega

/-- Concrete instance of C4: the theorem applied to the stack `[3, 7, 7]`
(duplicate weights, ascending input). -/
theorem sortWeightIndexStack_eq_sortDescending_witness :
    ([(3 : ℤ), 7, 7].length ≤ 3) ∧
      sortWeightIndexStack [(3 : ℤ), 7, 7] = sortDescending [(3 : ℤ), 7, 7] :=
  ⟨by decide, sortWeightIndexStack_eq_sortDescending [3, 7, 7] (by decide)⟩

/-- C5: whenever both SGR box-filter radii are active, the three
fixed-point blend weights of `BoxFilterProcess` satisfy
`w0 + w1 + w2 = 1 << kSgrProjPrecisionBits` exactly (provided the derived
`w2` is `int16_t`-representable, which holds for every conforming
multiplier pair). -/
theorem sgr_weights_sum_to_precision (w0 w1 : ℤ)
    (h1 : -32768 ≤ 2 ^ kSgrProjPrecisionBits - w0 - w1)
    (h2 : 2 ^ kSgrProjPrecisionBits - w0 - w1 < 32768) :
    w0 + w1 + sgrW2 w0 w1 = 2 ^ kSgrProjPrecisionBits := by
  unfold sgrW2 toInt16
  unfold kSgrProjPrecisionBits at h1 h2 ⊢
  norm_num at h1 h2 ⊢
  omega

/-- Concrete instance of C5: the theorem applied at the multiplier pair
`(w0, w1) = (-32, 31)`. -/
theorem sgr_weights_sum_to_precision_witness :
    ((-32768 ≤ 2 ^ kSgrProjPrecisionBits - (-32) - 31 ∧
        2 ^ kSgrProjPrecisionBits - (-32) - 31 < 32768) ∧
      (-32 : ℤ) + 31 + sgrW2 (-32) 31 = 2 ^ kSgrProjPrecisionBits) :=
  ⟨⟨by decide, by decide⟩,
    sgr_weights_sum_to_precision (-32) 31 (by decide) (by decide)⟩

/-- `AddSample` preserves `num_warp_samples <= num_samples_scanned` and
`num_samples_scanned <= kMaxLeastSquaresSamples`. -/
theorem addSample_inv (p v : Bool) (d : ℤ × ℤ × ℤ × ℤ)
    (s : WarpSampleState) (h1 : s.numWarpSamples ≤ s.numSamplesScanned)
    (h2 : s.numSamplesScanned ≤ kMaxLeastSquaresSamples) :
    (addSample p v d s).numWarpSamples ≤
        (addSample p v d s).numSamplesScanned ∧
      (addSample p v d s).numSamplesScanned ≤ kMaxLeastSquaresSamples := by
  unfold kMaxLeastSquaresSamples at h2 ⊢
  simp only [addSample, kMaxLeastSquaresSamples]
  split_ifs <;> (try simp) <;> omega

/-- The warp-sample invariant holds along the whole scan fold. -/
theorem scanWarpSamples_inv_aux (samples : List (Bool × Bool × (ℤ × ℤ × ℤ × ℤ)))
    (s : WarpSampleState) (h1 : s.numWarpSamples ≤ s.numSamplesScanned)
    (h2 : s.numSamplesScanned ≤ kMaxLeastSquaresSamples) :
    (samples.foldl (fun t e => addSample e.1 e.2.1 e.2.2 t) s).numWarpSamples ≤
        (samples.foldl (fun t e => addSample e.1 e.2.1 e.2.2 t)
          s).numSamplesScanned ∧
      (samples.foldl (fun t e => addSample e.1 e.2.1 e.2.2 t)
        s).numSamplesScanned ≤ kMaxLeastSquaresSamples := by
  induction samples generalizing s with
  | nil => exact ⟨h1, h2⟩
  | cons e rest ih =>
    simp only [List.foldl_cons]
    have h := addSample_inv e.1 e.2.1 e.2.2 s h1 h2
    exact ih _ h.1 h.2

/-- C8: `FindWarpSamples` scans and stores at most
`kMaxLeastSquaresSamples` samples, and whenever the scan ends with zero
valid warp samples but at least one scanned sample, `num_warp_samples` is
forced to 1. -/
theorem findWarpSamples_props (samples : List (Bool × Bool × (ℤ × ℤ × ℤ × ℤ))) :
    (findWarpSamples samples).numSamplesScanned ≤ kMaxLeastSquaresSamples ∧
      (findWarpSamples samples).numWarpSamples ≤ kMaxLeastSquaresSamples ∧
      ((scanWarpSamples samples).numWarpSamples = 0 ∧
          0 < (scanWarpSamples samples).numSamplesScanned →
        (findWarpSamples samples).numWarpSamples = 1) := by
  have h := scanWarpSamples_inv_aux samples initialWarpState (Nat.le_refl 0)
    (by norm_num [initialWarpState, kMaxLeastSquaresSamples])
  have hscan : scanWarpSamples samples =
      samples.foldl (fun t e => addSample e.1 e.2.1 e.2.2 t)
        initialWarpState := rfl
  rw [← hscan] at h
  simp only [findWarpSamples]
  split_ifs with hc
  · refine ⟨h.2, ?_, fun _ => rfl⟩
    unfold kMaxLeastSquaresSamples
    simp
  · exact ⟨h.2, le_trans h.1 h.2, fun hcc => absurd ⟨hcc.1, hcc.2⟩ hc⟩

/-- Concrete instance of C8: one scanned-but-invalid sample; the theorem's
fallback clause applied there. -/
theorem findWarpSamples_props_witness :
    ((scanWarpSamples [(true, false, (0, 0, 0, 0))]).numWarpSamples = 0 ∧
        0 < (scanWarpSamples [(true, false, (0, 0, 0, 0))]).numSamplesScanned) ∧
      (findWarpSamples [(true, false, (0, 0, 0, 0))]).numWarpSamples = 1 :=
  ⟨⟨by decide, by decide⟩,
    (findWarpSamples_props [(true, false, (0, 0, 0, 0))]).2.2
      ⟨by decide, by decide⟩⟩

/-- C9: `ApplySuperResThreaded` partitions the frame's rows4x4 over
`thread_count + 1` workers: each pool thread gets exactly
`rows4x4 / (thread_count + 1)` rows4x4, the calling thread (worker index
`thread_count`) gets the remaining
`rows4x4 - (rows4x4 / (thread_count + 1)) * thread_count` rows (at least
as many as a pool thread), and the shares are consecutive, start at row 0,
end at `rows4x4`, and cover every row exactly once. -/
theorem superres_row_partition (rows4x4 t : ℕ) :
    (∀ i, i < t → superResRowCount rows4x4 t i = rows4x4 / (t + 1)) ∧
      superResRowCount rows4x4 t t =
        rows4x4 - rows4x4 / (t + 1) * t ∧
      superResRowStart rows4x4 t 0 = 0 ∧
      (∀ i, i < t → superResRowStart rows4x4 t (i + 1) =
        superResRowStart rows4x4 t i + superResRowCount rows4x4 t i) ∧
      superResRowStart rows4x4 t t + superResRowCount rows4x4 t t =
        rows4x4 ∧
      rows4x4 / (t + 1) ≤ superResRowCount rows4x4 t t ∧
      (∀ r, r < rows4x4 → ∃! i, i ≤ t ∧ superResRowStart rows4x4 t i ≤ r ∧
        r < superResRowStart rows4x4 t i + superResRowCount rows4x4 t i) := by
  have hdm := Nat.div_add_mod rows4x4 (t + 1)
  have hmod : rows4x4 % (t + 1) < t + 1 := Nat.mod_lt _ (by omega)
  have hmul : (t + 1) * (rows4x4 / (t + 1)) =
      t * (rows4x4 / (t + 1)) + rows4x4 / (t + 1) := by ring
  have hcomm : rows4x4 / (t + 1) * t = t * (rows4x4 / (t + 1)) :=
    Nat.mul_comm _ _
  have hle : rows4x4 / (t + 1) * t ≤ rows4x4 :=
    le_trans (Nat.mul_le_mul_left _ (Nat.le_succ t))
      (Nat.div_mul_le_self rows4x4 (t + 1))
  refine ⟨?_, ?_, ?_, ?_, ?_, ?_, ?_⟩
  · intro i hi
    unfold superResRowCount threadPoolRows4x4
    rw [if_pos hi]
  · unfold superResRowCount currentThreadRows4x4 threadPoolRows4x4
    rw [if_neg (lt_irrefl t)]
  · unfold superResRowStart
    exact Nat.zero_mul _
  · intro i hi
    unfold superResRowStart superResRowCount threadPoolRows4x4
    rw [if_pos hi, Nat.succ_mul]
  · unfold superResRowStart superResRowCount currentThreadRows4x4
      threadPoolRows4x4
    rw [if_neg (lt_irrefl t)]
    omega
  · unfold superResRowCount currentThreadRows4x4 threadPoolRows4x4
    rw [if_neg (lt_irrefl t)]
    omega
  · intro r hr
    by_cases hq0 : rows4x4 / (t + 1) = 0
    · refine ⟨t, ⟨le_refl t, ?_, ?_⟩, ?_⟩
      · unfold superResRowStart threadPoolRows4x4
        rw [hq0, Nat.mul_zero]
        exact Nat.zero_le r
      · unfold superResRowStart superResRowCount currentThreadRows4x4
          threadPoolRows4x4
        rw [if_neg (lt_irrefl t), hq0]
        omega
      · rintro j ⟨hj, hjl, hjr⟩
        simp only [superResRowStart, superResRowCount, currentThreadRows4x4,
          threadPoolRows4x4] at hjl hjr
        rcases Nat.lt_or_ge j t with hlt | hge
        · rw [if_pos hlt, hq0] at hjr
          rw [hq0] at hjl
          omega
        · omega
    · by_cases hrt : r < t * (rows4x4 / (t + 1))
      · have hqpos : 0 < rows4x4 / (t + 1) := Nat.pos_of_ne_zero hq0
        have hidiv : r / (rows4x4 / (t + 1)) < t :=
          (Nat.div_lt_iff_lt_mul hqpos).mpr hrt
        have hdm2 := Nat.div_add_mod r (rows4x4 / (t + 1))
        have hmod2 : r % (rows4x4 / (t + 1)) < rows4x4 / (t + 1) :=
          Nat.mod_lt _ hqpos
        have hcomm2 : (rows4x4 / (t + 1)) * (r / (rows4x4 / (t + 1))) =
            (r / (rows4x4 / (t + 1))) * (rows4x4 / (t + 1)) :=
          Nat.mul_comm _ _
        refine ⟨r / (rows4x4 / (t + 1)), ⟨le_of_lt hidiv, ?_, ?_⟩, ?_⟩
        · simp only [superResRowStart, threadPoolRows4x4]
          omega
        · simp only [superResRowStart, superResRowCount, threadPoolRows4x4]
          rw [if_pos hidiv]
          omega
        · rintro j ⟨hj, hjl, hjr⟩
          simp only [superResRowStart, superResRowCount, currentThreadRows4x4,
            threadPoolRows4x4] at hjl hjr
          rcases Nat.lt_or_ge j t with hlt | hge
          · rw [if_pos hlt] at hjr
            have hdiv : r / (rows4x4 / (t + 1)) = j :=
              Nat.div_eq_of_lt_le hjl (by rw [Nat.succ_mul]; omega)
            exact hdiv.symm
          · have hjeq : j = t := by omega
            rw [hjeq] at hjl
            omega
      · refine ⟨t, ⟨le_refl t, ?_, ?_⟩, ?_⟩
        · simp only [superResRowStart, threadPoolRows4x4]
          omega
        · simp only [superResRowStart, superResRowCount, currentThreadRows4x4,
            threadPoolRows4x4]
          rw [if_neg (lt_irrefl t)]
          omega
        · rintro j ⟨hj, hjl, hjr⟩
          simp only [superResRowStart, superResRowCount, currentThreadRows4x4,
            threadPoolRows4x4] at hjl hjr
          rcases Nat.lt_or_ge j t with hlt | hge
          · rw [if_pos hlt] at hjr
            have hjq : (j + 1) * (rows4x4 / (t + 1)) =
                j * (rows4x4 / (t + 1)) + rows4x4 / (t + 1) :=
              Nat.succ_mul _ _
            have hjle : (j + 1) * (rows4x4 / (t + 1)) ≤
                t * (rows4x4 / (t + 1)) :=
              Nat.mul_le_mul_right _ (by omega)
            omega
          · omega

/-- Concrete instance of C9: the theorem applied at `rows4x4 = 10`,
`thread_count = 3` (pool share at worker 2, and unique coverage of
row 9). -/
theorem superres_row_partition_witness :
    ((2 : ℕ) < 3 ∧ superResRowCount 10 3 2 = 10 / 4) ∧
      ((9 : ℕ) < 10 ∧ ∃! i, i ≤ 3 ∧ superResRowStart 10 3 i ≤ 9 ∧
        9 < superResRowStart 10 3 i + superResRowCount 10 3 i) :=
  ⟨⟨by decide, (superres_row_partition 10 3).1 2 (by decide)⟩,
    ⟨by decide, (superres_row_partition 10 3).2.2.2.2.2.2 9 (by decide)⟩⟩

/-- C6: a CDEF working-copy row built past a true frame top/bottom edge
consists entirely of the sentinel `PostFilter::kCdefLargeValue`; at a
true frame left/right edge every horizontal padding cell is exactly the
sentinel (no neighbouring pixel data, no wrap-around); away from a true
frame edge the padding copies the true neighbouring pixels and the body
always copies the frame pixels.  `PrepareCdefBlock` raises the top/left
flags exactly for the first 64x64 row/column. -/
theorem cdef_padding_sentinel (src : ℤ → ℤ) (blockWidth : ℤ)
    (ftb fl fr : Bool) (x : ℤ) (hbw : 0 < blockWidth) :
    (ftb = true → copyRowsCell src blockWidth ftb fl fr x = kCdefLargeValue) ∧
      (ftb = false → fl = true → x < 0 →
        copyRowsCell src blockWidth ftb fl fr x = kCdefLargeValue) ∧
      (ftb = false → fr = true → blockWidth ≤ x →
        copyRowsCell src blockWidth ftb fl fr x = kCdefLargeValue) ∧
      (ftb = false → 0 ≤ x → x < blockWidth →
        copyRowsCell src blockWidth ftb fl fr x = src x) ∧
      (ftb = false → fl = false → x < 0 →
        copyRowsCell src blockWidth ftb fl fr x = src x) ∧
      (ftb = false → fr = false → blockWidth ≤ x →
        copyRowsCell src blockWidth ftb fl fr x = src x) ∧
      cdefIsFrameTop 0 = true ∧ cdefIsFrameLeft 0 = true ∧
      (∀ r : ℕ, r ≠ 0 → cdefIsFrameTop r = false) ∧
      (∀ c : ℕ, c ≠ 0 → cdefIsFrameLeft c = false) := by
  refine ⟨?_, ?_, ?_, ?_, ?_, ?_, rfl, rfl, ?_, ?_⟩
  · intro h1
    simp [copyRowsCell, h1]
  · intro h1 h2 h3
    simp [copyRowsCell, h1, h2, h3]
  · intro h1 h2 h3
    have hx0 : ¬x < 0 := by omega
    have hxb : ¬x < blockWidth := by omega
    simp [copyRowsCell, h1, h2, hx0, hxb]
  · intro h1 h2 h3
    have hx0 : ¬x < 0 := by omega
    simp [copyRowsCell, h1, hx0, h3]
  · intro h1 h2 h3
    simp [copyRowsCell, h1, h2, h3]
  · intro h1 h2 h3
    have hx0 : ¬x < 0 := by omega
    have hxb : ¬x < blockWidth := by omega
    simp [copyRowsCell, h1, h2, hx0, hxb]
  · intro r hr
    simp [cdefIsFrameTop, hr]
  · intro c hc
    simp [cdefIsFrameLeft, hc]

/-- Concrete instance of C6: the theorem applied at a left frame edge
with an 8-pixel-wide block, evaluated at padding column `x = -1`. -/
theorem cdef_padding_sentinel_witness :
    ((0 : ℤ) < 8) ∧
      copyRowsCell (fun _ => 77) 8 false true false (-1) = kCdefLargeValue :=
  ⟨by decide,
    (cdef_padding_sentinel (fun _ => 77) 8 false true false (-1)
      (by decide)).2.1 rfl rfl (by decide)⟩

/-- C7: a deblock edge is left unfiltered exactly when it lies at the
frame boundary, or both sides' filter levels are zero, or `SkipFilter`
holds; when it is filtered, the selected filter length is the minimum of
the transform sizes (in the filtering direction) of the two adjacent
blocks — for both the horizontal and the vertical edge-info queries. -/
theorem deblock_edge_decision (th tw : ℕ → ℕ)
    (findRow findCol : ℕ → BlockParameters) (row4x4 column4x4 : ℕ) :
    ((getHorizontalDeblockFilterEdgeInfo th findRow row4x4).filtered = false ↔
        row4x4 = 0 ∨
          ((findRow row4x4).deblockFilterLevel 1 = 0 ∧
            (findRow (row4x4 - 1)).deblockFilterLevel 1 = 0) ∨
          skipFilter (findRow row4x4) (findRow (row4x4 - 1)) = true) ∧
      ((getHorizontalDeblockFilterEdgeInfo th findRow row4x4).filtered =
          true →
        (getHorizontalDeblockFilterEdgeInfo th findRow row4x4).filterLength =
          min (th row4x4) (th (row4x4 - 1))) ∧
      ((getVerticalDeblockFilterEdgeInfo tw findCol column4x4).filtered =
          false ↔
        column4x4 = 0 ∨
          ((findCol column4x4).deblockFilterLevel 0 = 0 ∧
            (findCol (column4x4 - 1)).deblockFilterLevel 0 = 0) ∨
          skipFilter (findCol column4x4) (findCol (column4x4 - 1)) = true) ∧
      ((getVerticalDeblockFilterEdgeInfo tw findCol column4x4).filtered =
          true →
        (getVerticalDeblockFilterEdgeInfo tw findCol column4x4).filterLength =
          min (tw column4x4) (tw (column4x4 - 1))) := by
  refine ⟨?_, ?_, ?_, ?_⟩ <;>
    · simp only [getHorizontalDeblockFilterEdgeInfo,
        getVerticalDeblockFilterEdgeInfo]
      split_ifs <;> simp_all

/-- Concrete instance of C7: a filtered horizontal edge at row 1 between
two distinct non-skip blocks with level 1 and 8-pixel transforms. -/
theorem deblock_edge_decision_witness :
    ((getHorizontalDeblockFilterEdgeInfo (fun _ => 8)
        (fun r => ⟨r, false, false, fun _ => 1⟩) 1).filtered = true) ∧
      (getHorizontalDeblockFilterEdgeInfo (fun _ => 8)
          (fun r => ⟨r, false, false, fun _ => 1⟩) 1).filterLength =
        min 8 8 :=
  ⟨by decide,
    (deblock_edge_decision (fun _ => 8) (fun _ => 8)
        (fun r => ⟨r, false, false, fun _ => 1⟩)
        (fun c => ⟨c, false, false, fun _ => 1⟩) 1 1).2.1 (by decide)⟩

/-- C1 (counterexample): for a temporal unit with 3 output layers at
`position_in_temporal_unit` = {2,0,1}, the sorted table scanned with a
single monotonically decreasing index does NOT dequeue the layers in
order 2,1,0. -/
theorem dequeueOrder_not_descending :
    (dequeueOrder [⟨10, 2⟩, ⟨11, 0⟩, ⟨12, 1⟩]).map
        OutputLayer.positionInTemporalUnit ≠ [2, 1, 0] := by
  decide

/-- C1 (amended): `output_layers[]` is sorted in descending
`position_in_temporal_unit` order, and the monotonically-decreasing-index
scan of `DequeueFrame` therefore returns the layers in ascending
`position_in_temporal_unit` order — display order; for positions {2,0,1}
successive calls dequeue 0,1,2. -/
theorem dequeueOrder_ascending (l : List OutputLayer) :
    List.Sorted outputLayerGe (sortOutputLayers l) ∧
      List.Sorted (fun a b : OutputLayer =>
        a.positionInTemporalUnit ≤ b.positionInTemporalUnit)
        (dequeueOrder l) ∧
      (dequeueOrder [⟨10, 2⟩, ⟨11, 0⟩, ⟨12, 1⟩]).map
        OutputLayer.positionInTemporalUnit = [0, 1, 2] := by
  refine ⟨List.sorted_insertionSort outputLayerGe l, ?_, by decide⟩
  have h := List.sorted_insertionSort outputLayerGe l
  exact List.pairwise_reverse.mpr h

end Libgav1
